import Mathlib

/- Verification of the earnings notification script
   earnings/fetchEarningsFromFinnhub.mjs.

   Shallow-embedding conventions:
   - A JSON field that the upstream payload may carry as a number, as null,
     or not at all is modelled by `JVal` (`num` / `null` / `undef`).  The
     script's strict test `x !== null` holds of both `num` and `undef`;
     its loose test `x == null` holds of both `null` and `undef`.
   - A possibly-missing string field (`item.symbol`) is an `Option String`;
     JavaScript `===` on such fields (where `undefined === undefined` is
     true) is equality of the `Option` values.
   - Report dates are modelled by natural numbers.  The script stores the
     upstream ISO `YYYY-MM-DD` strings and compares them with `===`, and
     sorts by `new Date(a.date) - new Date(b.date)`; on that fixed format
     string equality and `Date` ordering coincide with the numeric model.
   - `Array.prototype.sort` is stable (ES2019) and the comparator is a
     consistent total preorder on dates, so the sort is modelled by a
     stable insertion sort keyed on the date.
   - The webhook send and the timer are the only effects inside the loop.
     Building the embed never throws: every field value is wrapped in
     `String(...)` (a missing symbol renders as the text "undefined"), so
     a send is attempted for every item that passes the two gates.  Send
     success/failure is an oracle `sendOk : Nat → Bool` indexed by the
     number of sends attempted so far; a failed send throws, which the
     `catch` in `main` absorbs after the loop is abandoned.
   - `main`'s `try/catch/finally` shape is modelled by `run`, which also
     returns the trace of externally visible effects (webhook sends and
     the single `saveState` call emitted by the `finally` block).
   - Floating-point decimal formatting (`toFixed(2)`) is modelled over ℚ
     with round-half-up; at the concrete values the claims mention the
     IEEE double computation rounds the same way. -/

inductive JVal where
  | null
  | undef
  | num (q : ℚ)
deriving DecidableEq

structure Item where
  symbol : Option String
  date : Nat
  quarter : JVal
  epsActual : JVal
  epsEstimate : JVal
  revenueActual : JVal
  revenueEstimate : JVal
  hour : Option String
deriving DecidableEq

structure NotificationRecord where
  symbol : Option String
  date : Nat
deriving DecidableEq

/-- The object pushed by `state.push({ symbol: item.symbol, date: item.date })`. -/
def recordOf (i : Item) : NotificationRecord := ⟨i.symbol, i.date⟩

/-- `item.epsActual !== null || item.revenueActual !== null` (lines 56-57). -/
def isReported (i : Item) : Bool :=
  (i.epsActual != JVal.null) || (i.revenueActual != JVal.null)

/-- `state.some((e) => e.symbol === item.symbol && e.date === item.date)` (lines 60-62). -/
def existsInState (state : List NotificationRecord) (i : Item) : Bool :=
  state.any fun e => e.symbol == i.symbol && e.date == i.date

/-- Two-digit zero padding of the fractional part. -/
def pad2 (n : Nat) : String :=
  if n < 10 then "0" ++ toString n else toString n

/-- `x.toFixed(2)` modelled over ℚ: round half up to two decimals. -/
def toFixed2 (q : ℚ) : String :=
  let sgn := if q < 0 then "-" else ""
  let a : ℚ := if q < 0 then -q else q
  let r : ℚ := a * 100 + 1 / 2
  let n : Nat := r.num.toNat / r.den
  sgn ++ toString (n / 100) ++ "." ++ pad2 (n % 100)

/-- `const toBillions = (n) => n == null ? "N/A" : `$\x7b(n / 1e9).toFixed(2)\x7dB`;`
    (lines 72-73); the loose `== null` catches both null and undefined. -/
def toBillions : JVal → String
  | JVal.num q => "$" ++ toFixed2 (q / 1000000000) ++ "B"
  | _ => "N/A"

/-- Comparator key of `unsorted_earnings.sort((a, b) => new Date(a.date) - new Date(b.date))`. -/
def dateLe (a b : Item) : Prop := a.date ≤ b.date

instance : DecidableRel dateLe := fun a b => Nat.decLe a.date b.date

/-- Lines 51-53: stable ascending sort of the fetched batch by report date. -/
def sortByDate (l : List Item) : List Item := List.insertionSort dateLe l

/-- Externally visible effects of one run: webhook sends and state saves. -/
inductive Effect where
  | send (i : Item)
  | save (state : List NotificationRecord)
deriving DecidableEq

def Effect.isSave : Effect → Bool
  | .save _ => true
  | _ => false

structure DispatchResult where
  state : List NotificationRecord
  attempted : List Item
  sent : List Item
  ok : Bool

/-- The `for (const item of earnings)` loop (lines 55-116).  `attempted`
    are the items for which `webhook.send` was called, `sent` those whose
    send succeeded (and whose record was pushed).  A failed send throws,
    abandoning the rest of the list with the state unchanged since the
    last success (`ok = false`). -/
def dispatch (sendOk : Nat → Bool) :
    List Item → List NotificationRecord → Nat → DispatchResult
  | [], state, _ => ⟨state, [], [], true⟩
  | i :: rest, state, n =>
    if !(isReported i) then dispatch sendOk rest state n
    else if existsInState state i then dispatch sendOk rest state n
    else if sendOk n then
      let d := dispatch sendOk rest (state ++ [recordOf i]) (n + 1)
      ⟨d.state, i :: d.attempted, i :: d.sent, d.ok⟩
    else ⟨state, [i], [], false⟩

/-- The delivery queue: the items the loop would attempt when every send
    succeeds, i.e. the reportable items not deduplicated against the
    incrementally updated state. -/
def deliveryQueue : List NotificationRecord → List Item → List Item
  | _, [] => []
  | state, i :: rest =>
    if !(isReported i) then deliveryQueue state rest
    else if existsInState state i then deliveryQueue state rest
    else i :: deliveryQueue (state ++ [recordOf i]) rest

structure RunResult where
  saved : List NotificationRecord
  attempted : List Item
  sent : List Item
  ok : Bool
  trace : List Effect

/-- `main` (lines 41-124).  `fetched = none` models the axios call
    throwing (timeout / non-2xx); the `catch` absorbs any error from the
    fetch or from a failed send, and the `finally` block saves the
    current in-memory state exactly once on every path. -/
def run (sendOk : Nat → Bool) (loaded : List NotificationRecord)
    (fetched : Option (List Item)) : RunResult :=
  match fetched with
  | none => ⟨loaded, [], [], false, [Effect.save loaded]⟩
  | some raw =>
    let d := dispatch sendOk (sortByDate raw) loaded 0
    ⟨d.state, d.attempted, d.sent, d.ok,
      d.attempted.map Effect.send ++ [Effect.save d.state]⟩

/-- Send oracle under which every webhook send succeeds. -/
def allOk : Nat → Bool := fun _ => true

/-- Send oracle under which exactly the k-th send attempt (0-based) fails. -/
def failAt (k : Nat) : Nat → Bool := fun n => n != k

/-- JSON values, for the persisted-state file contents. -/
inductive Jv where
  | jnull
  | jbool (b : Bool)
  | jnum (q : ℚ)
  | jstr (s : String)
  | jarr (elems : List Jv)
  | jobj (fields : List (String × Jv))

def Jv.isArr : Jv → Bool
  | .jarr _ => true
  | _ => false

/-- What `fs.readFile` + `JSON.parse` can yield for the state file:
    the file is absent, unreadable, readable but not valid JSON, or
    valid JSON parsing to `v`. -/
inductive StateFile where
  | absent
  | unreadable
  | invalid
  | parsed (v : Jv)

/-- `loadState` (lines 26-32): returns the parsed file content, or `[]`
    when reading or parsing throws. -/
def loadState : StateFile → Jv
  | StateFile.parsed v => v
  | _ => Jv.jarr []

/-- Concrete sample items used in the closed parts of the claims. -/
def mkItem (sym : Option String) (d : Nat) (eps rev : JVal) : Item :=
  ⟨sym, d, JVal.null, eps, JVal.null, rev, JVal.null, none⟩

def b1 : Item := mkItem (some "AAA") 1 (JVal.num 1) JVal.null
def b2 : Item := mkItem (some "BBB") 2 (JVal.num 1) JVal.null
def b3 : Item := mkItem (some "CCC") 3 (JVal.num 1) JVal.null
def b4 : Item := mkItem (some "DDD") 4 (JVal.num 1) JVal.null

/-- A malformed record: reportable but with no symbol field. -/
def noSymbolItem : Item := mkItem none 5 (JVal.num 2) JVal.null

/-- Both actuals null, both estimates present: a forward-looking estimate. -/
def bothNullItem : Item :=
  ⟨some "EST", 9, JVal.null, JVal.null, JVal.num 3, JVal.null, JVal.num 4, none⟩

/-- Both actual fields absent (undefined) rather than null. -/
def bothUndefItem : Item :=
  ⟨some "UND", 7, JVal.null, JVal.undef, JVal.null, JVal.undef, JVal.null, none⟩

theorem existsInState_iff (s : List NotificationRecord) (i : Item) :
    existsInState s i = true ↔ recordOf i ∈ s := by
  simp only [existsInState, List.any_eq_true, Bool.and_eq_true, beq_iff_eq, recordOf]
  constructor
  · rintro ⟨e, he, h1, h2⟩
    have he2 : e = (⟨i.symbol, i.date⟩ : NotificationRecord) := by
      cases e
      simp_all
    rw [he2] at he
    exact he
  · intro h
    exact ⟨⟨i.symbol, i.date⟩, h, rfl, rfl⟩

theorem existsInState_append (s t : List NotificationRecord) (i : Item)
    (h : existsInState s i = true) : existsInState (s ++ t) i = true := by
  rw [existsInState_iff] at h ⊢
  exact List.mem_append.mpr (Or.inl h)

theorem dispatch_state_eq (o : Nat → Bool) :
    ∀ (l : List Item) (s : List NotificationRecord) (n : Nat),
      (dispatch o l s n).state = s ++ ((dispatch o l s n).sent).map recordOf := by
  intro l
  induction l with
  | nil => intro s n; simp [dispatch]
  | cons i rest ih =>
    intro s n
    by_cases hr : isReported i
    · by_cases he : existsInState s i
      · simp [dispatch, hr, he, ih s n]
      · by_cases hs : o n
        · simp only [dispatch, hr, he, hs]
          simp [ih (s ++ [recordOf i]) (n + 1)]
        · simp [dispatch, hr, he, hs]
    · simp [dispatch, hr, ih]

theorem dispatch_sent_failAt (k : Nat) :
    ∀ (l : List Item) (s : List NotificationRecord) (n : Nat), n ≤ k →
      (dispatch (failAt k) l s n).sent = (deliveryQueue s l).take (k - n) := by
  intro l
  induction l with
  | nil => intro s n _; simp [dispatch, deliveryQueue]
  | cons i rest ih =>
    intro s n hn
    by_cases hr : isReported i
    · by_cases he : existsInState s i
      · simp [dispatch, deliveryQueue, hr, he, ih s n hn]
      · rcases Nat.lt_or_ge n k with hlt | hge
        · have hsend : failAt k n = true := by
            simp only [failAt, bne_iff_ne, ne_eq]
            omega
          have hk : k - n = (k - (n + 1)) + 1 := by omega
          simp only [dispatch, deliveryQueue, hr, he, hsend, Bool.not_true,
            Bool.false_eq_true, if_false, if_true, hk, List.take_succ_cons]
          simp [ih (s ++ [recordOf i]) (n + 1) (by omega)]
        · have hnk : n = k := by omega
          subst hnk
          have hsend : failAt n n = false := by simp [failAt]
          simp [dispatch, deliveryQueue, hr, he, hsend]
    · simp [dispatch, deliveryQueue, hr, ih s n hn]

theorem dispatch_attempted_failAt (k : Nat) :
    ∀ (l : List Item) (s : List NotificationRecord) (n : Nat), n ≤ k →
      (dispatch (failAt k) l s n).attempted
        = (deliveryQueue s l).take (k - n + 1) := by
  intro l
  induction l with
  | nil => intro s n _; simp [dispatch, deliveryQueue]
  | cons i rest ih =>
    intro s n hn
    by_cases hr : isReported i
    · by_cases he : existsInState s i
      · simp [dispatch, deliveryQueue, hr, he, ih s n hn]
      · rcases Nat.lt_or_ge n k with hlt | hge
        · have hsend : failAt k n = true := by
            simp only [failAt, bne_iff_ne, ne_eq]
            omega
          have hk : k - n + 1 = (k - (n + 1) + 1) + 1 := by omega
          simp only [dispatch, deliveryQueue, hr, he, hsend, Bool.not_true,
            Bool.false_eq_true, if_false, if_true, hk, List.take_succ_cons]
          simp [ih (s ++ [recordOf i]) (n + 1) (by omega)]
        · have hnk : n = k := by omega
          subst hnk
          have hsend : failAt n n = false := by simp [failAt]
          simp [dispatch, deliveryQueue, hr, he, hsend]
    · simp [dispatch, deliveryQueue, hr, ih s n hn]

theorem dispatch_ok_covers (o : Nat → Bool) :
    ∀ (l : List Item) (s : List NotificationRecord) (n : Nat),
      (dispatch o l s n).ok = true →
      ∀ i ∈ l, isReported i = true →
        existsInState (dispatch o l s n).state i = true := by
  intro l
  induction l with
  | nil => intro s n _ i hi; cases hi
  | cons j rest ih =>
    intro s n hok i hi hrep
    by_cases hr : isReported j
    · by_cases he : existsInState s j
      · simp only [dispatch, hr, he, Bool.not_true, Bool.false_eq_true,
          if_false, if_true] at hok ⊢
        rcases List.mem_cons.mp hi with hij | hi2
        · subst hij
          rw [dispatch_state_eq]
          exact existsInState_append _ _ _ he
        · exact ih s n hok i hi2 hrep
      · by_cases hs : o n
        · simp only [dispatch, hr, he, hs, Bool.not_true, Bool.false_eq_true,
            if_false, if_true] at hok ⊢
          rcases List.mem_cons.mp hi with hij | hi2
          · subst hij
            rw [dispatch_state_eq]
            apply existsInState_append
            rw [existsInState_iff]
            exact List.mem_append.mpr (Or.inr (List.mem_singleton.mpr rfl))
          · exact ih (s ++ [recordOf j]) (n + 1) hok i hi2 hrep
        · simp [dispatch, hr, he, hs] at hok
    · simp only [dispatch, hr, Bool.not_false, if_true] at hok ⊢
      rcases List.mem_cons.mp hi with hij | hi2
      · subst hij
        rw [hrep] at hr
        exact absurd rfl hr
      · exact ih s n hok i hi2 hrep

theorem dispatch_all_skipped (o : Nat → Bool) :
    ∀ (l : List Item) (s : List NotificationRecord) (n : Nat),
      (∀ i ∈ l, isReported i = false ∨ existsInState s i = true) →
      dispatch o l s n = ⟨s, [], [], true⟩ := by
  intro l
  induction l with
  | nil => intro s n _; simp [dispatch]
  | cons j rest ih =>
    intro s n h
    rcases h j (List.mem_cons_self j rest) with hr | he
    · simp only [dispatch, hr, Bool.not_false, if_true]
      exact ih s n fun i hi => h i (List.mem_cons_of_mem j hi)
    · by_cases hr : isReported j
      · simp only [dispatch, hr, he, Bool.not_true, Bool.false_eq_true,
          if_false, if_true]
        exact ih s n fun i hi => h i (List.mem_cons_of_mem j hi)
      · simp only [dispatch, hr, Bool.not_false, if_true]
        exact ih s n fun i hi => h i (List.mem_cons_of_mem j hi)

theorem dispatch_sent_key_fresh (o : Nat → Bool) :
    ∀ (l : List Item) (s : List NotificationRecord) (n : Nat),
      (∀ i ∈ (dispatch o l s n).sent, recordOf i ∉ s) ∧
      (((dispatch o l s n).sent).map recordOf).Nodup := by
  intro l
  induction l with
  | nil => intro s n; simp [dispatch]
  | cons j rest ih =>
    intro s n
    by_cases hr : isReported j
    · by_cases he : existsInState s j
      · simp only [dispatch, hr, he, Bool.not_true, Bool.false_eq_true,
          if_false, if_true]
        exact ih s n
      · by_cases hs : o n
        · simp only [dispatch, hr, he, hs, Bool.not_true, Bool.false_eq_true,
            if_false, if_true]
          have hfreshj : recordOf j ∉ s := fun hmem =>
            he ((existsInState_iff s j).mpr hmem)
          rcases ih (s ++ [recordOf j]) (n + 1) with ⟨ihf, ihn⟩
          constructor
          · intro i hi
            rcases List.mem_cons.mp hi with hij | hi2
            · subst hij; exact hfreshj
            · intro hmem
              exact ihf i hi2 (List.mem_append.mpr (Or.inl hmem))
          · simp only [List.map_cons, List.nodup_cons]
            refine ⟨fun hmem => ?_, ihn⟩
            rcases List.mem_map.mp hmem with ⟨i, hi, hkey⟩
            apply ihf i hi
            rw [hkey]
            exact List.mem_append.mpr (Or.inr (List.mem_singleton.mpr rfl))
        · simp [dispatch, hr, he, hs]
    · simp only [dispatch, hr, Bool.not_false, if_true]
      exact ih s n

theorem dispatch_attempted_sublist (o : Nat → Bool) :
    ∀ (l : List Item) (s : List NotificationRecord) (n : Nat),
      (dispatch o l s n).attempted.Sublist l := by
  intro l
  induction l with
  | nil => intro s n; simp [dispatch]
  | cons j rest ih =>
    intro s n
    by_cases hr : isReported j
    · by_cases he : existsInState s j
      · simp only [dispatch, hr, he, Bool.not_true, Bool.false_eq_true,
          if_false, if_true]
        exact (ih s n).cons j
      · by_cases hs : o n
        · simp only [dispatch, hr, he, hs, Bool.not_true, Bool.false_eq_true,
            if_false, if_true]
          exact (ih (s ++ [recordOf j]) (n + 1)).cons₂ j
        · simp only [dispatch, hr, he, hs, Bool.not_true, Bool.false_eq_true,
            if_false, if_true]
          exact (List.nil_sublist rest).cons₂ j
    · simp only [dispatch, hr, Bool.not_false, if_true]
      exact (ih s n).cons j

theorem dispatch_attempted_reported (o : Nat → Bool) :
    ∀ (l : List Item) (s : List NotificationRecord) (n : Nat),
      ∀ i ∈ (dispatch o l s n).attempted, isReported i = true := by
  intro l
  induction l with
  | nil => intro s n i hi; simp [dispatch] at hi
  | cons j rest ih =>
    intro s n i hi
    by_cases hr : isReported j
    · by_cases he : existsInState s j
      · simp only [dispatch, hr, he, Bool.not_true, Bool.false_eq_true,
          if_false, if_true] at hi
        exact ih s n i hi
      · by_cases hs : o n
        · simp only [dispatch, hr, he, hs, Bool.not_true, Bool.false_eq_true,
            if_false, if_true] at hi
          rcases List.mem_cons.mp hi with hij | hi2
          · subst hij; exact hr
          · exact ih (s ++ [recordOf j]) (n + 1) i hi2
        · simp only [dispatch, hr, he, hs, Bool.not_true, Bool.false_eq_true,
            if_false, if_true, List.mem_singleton] at hi
          subst hi; exact hr
    · simp only [dispatch, hr, Bool.not_false, if_true] at hi
      exact ih s n i hi

theorem dispatch_allOk_ok (l : List Item) :
    ∀ (s : List NotificationRecord) (n : Nat),
      (dispatch allOk l s n).ok = true := by
  induction l with
  | nil => intro s n; simp [dispatch]
  | cons j rest ih =>
    intro s n
    by_cases hr : isReported j
    · by_cases he : existsInState s j
      · simp only [dispatch, hr, he, Bool.not_true, Bool.false_eq_true,
          if_false, if_true]
        exact ih s n
      · simp only [dispatch, hr, he, allOk, Bool.not_true, Bool.false_eq_true,
          if_false, if_true]
        exact ih (s ++ [recordOf j]) (n + 1)
    · simp only [dispatch, hr, Bool.not_false, if_true]
      exact ih s n

theorem sortByDate_pairwise (l : List Item) : (sortByDate l).Pairwise dateLe := by
  haveI : IsTotal Item dateLe := ⟨fun a b => Nat.le_total a.date b.date⟩
  haveI : IsTrans Item dateLe := ⟨fun a b c hab hbc => Nat.le_trans hab hbc⟩
  exact List.sorted_insertionSort dateLe l

theorem sortByDate_perm (l : List Item) : (sortByDate l).Perm l :=
  List.perm_insertionSort dateLe l

theorem orderedInsert_filter_date (x : Item) (d : Nat) :
    ∀ l : List Item,
      (List.orderedInsert dateLe x l).filter (fun i => i.date == d) =
        if x.date = d then x :: l.filter (fun i => i.date == d)
        else l.filter (fun i => i.date == d) := by
  intro l
  induction l with
  | nil =>
    by_cases hx : x.date = d
    · have hb : (x.date == d) = true := beq_iff_eq.mpr hx
      simp [List.orderedInsert, List.filter_cons, hx, hb]
    · have hb : (x.date == d) = false := beq_eq_false_iff_ne.mpr hx
      simp [List.orderedInsert, List.filter_cons, hx, hb]
  | cons b bs ih =>
    by_cases hxb : dateLe x b
    · by_cases hx : x.date = d
      · simp [List.orderedInsert, hxb, List.filter_cons, hx]
      · simp [List.orderedInsert, hxb, List.filter_cons, hx]
    · have hbx : b.date < x.date := Nat.lt_of_not_le hxb
      by_cases hx : x.date = d
      · have hb : ¬(b.date = d) := by omega
        simp [List.orderedInsert, hxb, List.filter_cons, ih, hx, hb]
      · simp [List.orderedInsert, hxb, List.filter_cons, ih, hx]

theorem sortByDate_filter (l : List Item) (d : Nat) :
    (sortByDate l).filter (fun i => i.date == d)
      = l.filter (fun i => i.date == d) := by
  induction l with
  | nil => rfl
  | cons x xs ih =>
    rw [show sortByDate (x :: xs) = List.orderedInsert dateLe x (sortByDate xs)
          from rfl,
        orderedInsert_filter_date]
    simp only [ih, List.filter_cons]
    by_cases hx : x.date = d
    · have hb : (x.date == d) = true := beq_iff_eq.mpr hx
      simp [hx, hb]
    · have hb : (x.date == d) = false := beq_eq_false_iff_ne.mpr hx
      simp [hx, hb]

theorem toFixed2_2345 : toFixed2 ((2345000000 : ℚ) / 1000000000) = "2.35" := by
  have h0 : ¬((2345000000 : ℚ) / 1000000000 < 0) := by norm_num
  have h1 : ((2345000000 : ℚ) / 1000000000) * 100 + 1 / 2 = (235 : ℚ) := by
    norm_num
  simp only [toFixed2, if_neg h0, h1]
  norm_num
  decide

theorem run_some_saved (o : Nat → Bool) (loaded : List NotificationRecord)
    (raw : List Item) :
    (run o loaded (some raw)).saved
      = (dispatch o (sortByDate raw) loaded 0).state := rfl

theorem run_some_attempted (o : Nat → Bool) (loaded : List NotificationRecord)
    (raw : List Item) :
    (run o loaded (some raw)).attempted
      = (dispatch o (sortByDate raw) loaded 0).attempted := rfl

theorem run_some_sent (o : Nat → Bool) (loaded : List NotificationRecord)
    (raw : List Item) :
    (run o loaded (some raw)).sent
      = (dispatch o (sortByDate raw) loaded 0).sent := rfl

theorem run_some_ok (o : Nat → Bool) (loaded : List NotificationRecord)
    (raw : List Item) :
    (run o loaded (some raw)).ok
      = (dispatch o (sortByDate raw) loaded 0).ok := rfl

theorem run_some_trace (o : Nat → Bool) (loaded : List NotificationRecord)
    (raw : List Item) :
    (run o loaded (some raw)).trace
      = ((dispatch o (sortByDate raw) loaded 0).attempted).map Effect.send
          ++ [Effect.save (dispatch o (sortByDate raw) loaded 0).state] := rfl

/-- C1: if the (j+1)-st webhook send of a run fails (oracle `failAt j`),
    the loop attempts exactly the first j+1 items of the delivery queue
    (so nothing after the failing item is attempted), and the state
    persisted at run end is exactly the loaded records plus one
    (symbol, date) record for each of the first j items, whose sends
    succeeded.  In particular, for a 4-item queue failing on item 3,
    exactly the records for items 1 and 2 are added and item 4 is never
    attempted. -/
theorem c1_partial_failure_durability :
    (∀ (loaded : List NotificationRecord) (items : List Item) (j : Nat),
      (run (failAt j) loaded (some items)).attempted
          = (deliveryQueue loaded (sortByDate items)).take (j + 1) ∧
      (run (failAt j) loaded (some items)).sent
          = (deliveryQueue loaded (sortByDate items)).take j ∧
      (run (failAt j) loaded (some items)).saved
          = loaded
              ++ ((deliveryQueue loaded (sortByDate items)).take j).map recordOf) ∧
    ((run (failAt 2) [] (some [b1, b2, b3, b4])).saved
        = [recordOf b1, recordOf b2] ∧
     (run (failAt 2) [] (some [b1, b2, b3, b4])).attempted = [b1, b2, b3] ∧
     b4 ∉ (run (failAt 2) [] (some [b1, b2, b3, b4])).attempted ∧
     (run (failAt 2) [] (some [b1, b2, b3, b4])).ok = false) := by
  constructor
  · intro loaded items j
    refine ⟨?_, ?_, ?_⟩
    · rw [run_some_attempted,
        dispatch_attempted_failAt j (sortByDate items) loaded 0 (Nat.zero_le j),
        Nat.sub_zero]
    · rw [run_some_sent,
        dispatch_sent_failAt j (sortByDate items) loaded 0 (Nat.zero_le j),
        Nat.sub_zero]
    · rw [run_some_saved, dispatch_state_eq,
        dispatch_sent_failAt j (sortByDate items) loaded 0 (Nat.zero_le j),
        Nat.sub_zero]
  · exact ⟨by decide, by decide, by decide, by decide⟩

/-- C2: the keys of the items sent in one run are pairwise distinct (so a
    same-run duplicate upstream entry for one (symbol, date) produces at
    most one send) and none of them was in the loaded state; and after a
    run over a batch completes successfully, a second run over the same
    batch starting from the persisted state attempts and sends nothing. -/
theorem c2_idempotency :
    (∀ (o : Nat → Bool) (loaded : List NotificationRecord)
        (items : List Item),
      ((((run o loaded (some items)).sent).map recordOf).Nodup) ∧
      (∀ i ∈ (run o loaded (some items)).sent, recordOf i ∉ loaded)) ∧
    (∀ (o o2 : Nat → Bool) (loaded : List NotificationRecord)
        (items : List Item),
      (run o loaded (some items)).ok = true →
      (run o2 ((run o loaded (some items)).saved) (some items)).attempted
          = [] ∧
      (run o2 ((run o loaded (some items)).saved) (some items)).sent = []) := by
  constructor
  · intro o loaded items
    rcases dispatch_sent_key_fresh o (sortByDate items) loaded 0 with ⟨hf, hn⟩
    constructor
    · rw [run_some_sent]; exact hn
    · rw [run_some_sent]; exact hf
  · intro o o2 loaded items hok
    rw [run_some_ok] at hok
    have hcov := dispatch_ok_covers o (sortByDate items) loaded 0 hok
    have hskip : ∀ i ∈ sortByDate items,
        isReported i = false ∨
        existsInState ((run o loaded (some items)).saved) i = true := by
      intro i hi
      by_cases hr : isReported i
      · right
        rw [run_some_saved]
        exact hcov i hi hr
      · left
        exact Bool.eq_false_iff.mpr hr
    have hall := dispatch_all_skipped o2 (sortByDate items)
      ((run o loaded (some items)).saved) 0 hskip
    constructor
    · rw [run_some_attempted, hall]
    · rw [run_some_sent, hall]

/-- Witness for C2 at a concrete batch: the first run over [b1, b2]
    succeeds, and a second run from the saved state sends nothing. -/
theorem c2_witness :
    (run allOk ((run allOk [] (some [b1, b2])).saved) (some [b1, b2])).sent
      = [] :=
  (c2_idempotency.2 allOk allOk [] [b1, b2] (by decide)).2

/-- C3: an event passes the reportability gate iff at least one of its
    reported EPS / reported revenue fields is non-null (where an absent
    field also counts as non-null under the strict `!==` test), and an
    event with both fields null is never attempted, regardless of its
    estimate fields. -/
theorem c3_reportable_iff_nonnull :
    (∀ i : Item, isReported i = true ↔
        (i.epsActual ≠ JVal.null ∨ i.revenueActual ≠ JVal.null)) ∧
    (∀ (o : Nat → Bool) (loaded : List NotificationRecord)
        (items : List Item) (i : Item),
      i.epsActual = JVal.null → i.revenueActual = JVal.null →
      i ∉ (run o loaded (some items)).attempted) := by
  have hiff : ∀ i : Item, isReported i = true ↔
      (i.epsActual ≠ JVal.null ∨ i.revenueActual ≠ JVal.null) := by
    intro i
    simp [isReported]
  refine ⟨hiff, ?_⟩
  intro o loaded items i h1 h2 hmem
  rw [run_some_attempted] at hmem
  have hrep := dispatch_attempted_reported o (sortByDate items) loaded 0 i hmem
  rcases (hiff i).mp hrep with h | h
  · exact h h1
  · exact h h2

/-- Witness for C3: the concrete both-null event with non-null estimates
    is not attempted. -/
theorem c3_witness :
    bothNullItem ∉ (run allOk [] (some [bothNullItem])).attempted :=
  c3_reportable_iff_nonnull.2 allOk [] [bothNullItem] bothNullItem rfl rfl

theorem countP_save_map_send (l : List Item) :
    (l.map Effect.send).countP Effect.isSave = 0 := by
  induction l with
  | nil => rfl
  | cons i rest ih => simp [List.countP_cons, Effect.isSave, ih]

/-- C4: on every terminating run — fetch failure, delivery failure, or
    normal completion — the effect trace contains exactly one state save,
    it is the last effect, its payload is the run's final in-memory
    state, and that state contains a record for every successfully sent
    item. -/
theorem c4_save_exactly_once :
    ∀ (o : Nat → Bool) (loaded : List NotificationRecord)
      (fetched : Option (List Item)),
      (run o loaded fetched).trace.countP Effect.isSave = 1 ∧
      (run o loaded fetched).trace.getLast?
          = some (Effect.save ((run o loaded fetched).saved)) ∧
      (∀ s, Effect.save s ∈ (run o loaded fetched).trace →
        s = (run o loaded fetched).saved) ∧
      (∀ i ∈ (run o loaded fetched).sent,
        recordOf i ∈ (run o loaded fetched).saved) := by
  intro o loaded fetched
  match fetched with
  | none =>
    refine ⟨rfl, rfl, ?_, ?_⟩
    · intro s hs
      simp only [run, List.mem_singleton, Effect.save.injEq] at hs
      exact hs
    · intro i hi
      simp [run] at hi
  | some raw =>
    refine ⟨?_, ?_, ?_, ?_⟩
    · rw [run_some_trace, List.countP_append, countP_save_map_send]
      rfl
    · rw [run_some_trace, List.getLast?_concat, run_some_saved]
    · intro s hs
      rw [run_some_trace] at hs
      rcases List.mem_append.mp hs with hl | hr
      · rcases List.mem_map.mp hl with ⟨i, _, heq⟩
        exact Effect.noConfusion heq
      · rw [List.mem_singleton] at hr
        rw [run_some_saved]
        exact (Effect.save.injEq s _).mp hr
    · intro i hi
      rw [run_some_sent] at hi
      rw [run_some_saved, dispatch_state_eq]
      exact List.mem_append.mpr (Or.inr (List.mem_map_of_mem recordOf hi))

/-- Witness for C4: the record of the sent item b1 is in the saved state. -/
theorem c4_witness :
    recordOf b1 ∈ (run allOk [] (some [b1])).saved :=
  (c4_save_exactly_once allOk [] (some [b1])).2.2.2 b1 (by decide)

/-- C5: the delivery queue is sorted ascending by report date; the sort
    is a permutation of the input that preserves the relative order of
    equal-date items (stability, stated as commutation with filtering on
    a date); deliveries within a run follow that order; and a batch with
    dates [D3, D1, D2] is reordered to [D1, D2, D3]. -/
theorem c5_delivery_order :
    (∀ items : List Item, (sortByDate items).Pairwise dateLe) ∧
    (∀ items : List Item, (sortByDate items).Perm items) ∧
    (∀ (items : List Item) (d : Nat),
      (sortByDate items).filter (fun i => i.date == d)
        = items.filter (fun i => i.date == d)) ∧
    (∀ (o : Nat → Bool) (loaded : List NotificationRecord)
        (items : List Item),
      (run o loaded (some items)).attempted.Pairwise dateLe) ∧
    sortByDate [b3, b1, b2] = [b1, b2, b3] := by
  refine ⟨sortByDate_pairwise, sortByDate_perm, sortByDate_filter, ?_, by decide⟩
  intro o loaded items
  have hsub := dispatch_attempted_sublist o (sortByDate items) loaded 0
  rw [run_some_attempted]
  exact List.Pairwise.sublist hsub (sortByDate_pairwise items)

/-- C6 counterexample: the reportable event with no symbol field is
    itself delivered (its send succeeds and its record is pushed), so the
    claim that a malformed event is skipped and never notified is false
    on the code. -/
theorem c6_counterexample :
    noSymbolItem.symbol = none ∧
    noSymbolItem ∈ (run allOk [] (some [noSymbolItem, b1, b2])).sent :=
  ⟨rfl, by decide⟩

/-- C6 (amended): a malformed individual event (e.g., one missing its
    symbol) never aborts the batch — a run whose sends all succeed
    completes with ok = true for every batch — and all other valid
    reportable events in the same batch are still delivered; however the
    malformed event is not skipped: it is delivered too, with its missing
    symbol rendered as the literal text "undefined". -/
theorem c6_malformed_does_not_abort :
    (∀ (loaded : List NotificationRecord) (items : List Item),
      (run allOk loaded (some items)).ok = true) ∧
    b1 ∈ (run allOk [] (some [noSymbolItem, b1, b2])).sent ∧
    b2 ∈ (run allOk [] (some [noSymbolItem, b1, b2])).sent ∧
    noSymbolItem ∈ (run allOk [] (some [noSymbolItem, b1, b2])).sent := by
  refine ⟨?_, by decide, by decide, by decide⟩
  intro loaded items
  rw [run_some_ok]
  exact dispatch_allOk_ok (sortByDate items) loaded 0

/-- C7: monetary values are formatted in billions with two-decimal
    precision; null maps to the explicit "N/A" marker and
    2,345,000,000 maps to "$2.35B". -/
theorem c7_monetary_formatting :
    toBillions JVal.null = "N/A" ∧
    toBillions (JVal.num 2345000000) = "$2.35B" := by
  refine ⟨rfl, ?_⟩
  show "$" ++ toFixed2 ((2345000000 : ℚ) / 1000000000) ++ "B" = "$2.35B"
  rw [toFixed2_2345]
  decide

/-- C8 counterexample: a state file whose content is valid JSON but not
    an array of records — here the number 0 — is malformed as persisted
    state, yet loadState returns it verbatim instead of an empty State. -/
theorem c8_counterexample :
    (Jv.jnum 0).isArr = false ∧
    loadState (StateFile.parsed (Jv.jnum 0)) = Jv.jnum 0 ∧
    loadState (StateFile.parsed (Jv.jnum 0)) ≠ Jv.jarr [] := by
  refine ⟨rfl, rfl, ?_⟩
  intro h
  exact Jv.noConfusion h

/-- C8 (amended): loadState itself never fails the run; it returns an
    empty State when the file is absent, unreadable, or not valid JSON,
    and returns the parsed value verbatim — even when that value is not
    an array of records — when JSON parsing succeeds. -/
theorem c8_load_never_fails :
    loadState StateFile.absent = Jv.jarr [] ∧
    loadState StateFile.unreadable = Jv.jarr [] ∧
    loadState StateFile.invalid = Jv.jarr [] ∧
    ∀ v : Jv, loadState (StateFile.parsed v) = v :=
  ⟨rfl, rfl, rfl, fun _ => rfl⟩

/-- C9: if the loaded state has no two records with the same
    (symbol, date) pair, the persisted state after any run also has none;
    the loaded records are preserved unchanged as a prefix (never mutated
    or deleted), and every record added during the run is the record of
    an item whose send succeeded in that run. -/
theorem c9_uniqueness_invariant :
    ∀ (o : Nat → Bool) (loaded : List NotificationRecord)
      (fetched : Option (List Item)), loaded.Nodup →
      (run o loaded fetched).saved.Nodup ∧
      (run o loaded fetched).saved
        = loaded ++ ((run o loaded fetched).sent).map recordOf := by
  intro o loaded fetched hnd
  match fetched with
  | none => exact ⟨hnd, by simp [run]⟩
  | some raw =>
    rcases dispatch_sent_key_fresh o (sortByDate raw) loaded 0 with ⟨hf, hn⟩
    have hst := dispatch_state_eq o (sortByDate raw) loaded 0
    constructor
    · rw [run_some_saved, hst]
      apply List.Nodup.append hnd hn
      intro a ha hb
      rcases List.mem_map.mp hb with ⟨i, hi, hkey⟩
      apply hf i hi
      rw [hkey]
      exact ha
    · rw [run_some_saved, run_some_sent, hst]

/-- Witness for C9 at a concrete run over [b1] from an empty state. -/
theorem c9_witness :
    (run allOk [] (some [b1])).saved.Nodup ∧
    (run allOk [] (some [b1])).saved
      = [] ++ ((run allOk [] (some [b1])).sent).map recordOf :=
  c9_uniqueness_invariant allOk [] (some [b1]) List.nodup_nil

/-- C10: the strict `!== null` test distinguishes null from absent —
    an event whose epsActual and revenueActual are both absent
    (undefined) is classified as reported, and such an event is
    delivered. -/
theorem c10_undefined_counts_as_reported :
    (∀ i : Item, i.epsActual = JVal.undef → i.revenueActual = JVal.undef →
      isReported i = true) ∧
    bothUndefItem ∈ (run allOk [] (some [bothUndefItem])).sent := by
  refine ⟨?_, by decide⟩
  intro i h1 h2
  have hb : (i.epsActual != JVal.null) = true := by rw [h1]; rfl
  simp [isReported, hb]

/-- Witness for C10: the concrete both-undefined event is reported. -/
theorem c10_witness : isReported bothUndefItem = true :=
  c10_undefined_counts_as_reported.1 bothUndefItem rfl rfl
